import Mathlib

/-!
Verification of the stock-fetch pipeline (`scripts/fetch_stocks.py`).

The script is a linear fetch-normalize-write pipeline.  This file gives a
shallow embedding of its functions and proves the specification claims
about them.  Modelling conventions:

* Python floats are modelled as `ℚ`; `float(...)`/`int(...)` string
  coercions are modelled by `pyFloat`/`pyInt` (decimal forms with optional
  sign and fraction; the exponent/`inf`/`nan` forms, unused by the
  provider payloads, are omitted).
* Network transport is modelled by a `Transport` value handed to the fetch
  functions: either a raised request exception or a decoded JSON payload.
  JSON objects are modelled as association lists (a Python `dict` has
  unique keys; insertion order is preserved, and re-assignment keeps the
  original key position — `dictInsert` models exactly that).
* Calendar dates in the synthetic generator are modelled as
  proleptic-Gregorian ordinal day numbers (`ℤ`, `datetime.toordinal() - 1`),
  so day 0 is Monday 0001-01-01 and `weekday d = d % 7` matches Python's
  `datetime.weekday()` (Monday = 0 … Sunday = 6).  The `%Y-%m-%d`
  rendering used by `strftime` is strictly monotone in the ordinal, so
  integer comparisons of these day numbers coincide with string
  comparisons of the rendered dates.
* The global `random` generator is modelled as a stream of rationals with
  a cursor (`Rng`); `uniform`/`randint` clamp the drawn value into the
  requested interval, which is the only contract the source relies on.
-/

/-- Characters stripped by Python's `str.strip()` (ASCII whitespace). -/
def isPySpace (c : Char) : Bool :=
  c = ' ' || c = '\t' || c = '\n' || c = '\r' || c = '\x0b' || c = '\x0c'

/-- Python `str.strip()`: remove leading and trailing whitespace. -/
def pyStrip (s : String) : String :=
  String.mk (((s.data.dropWhile isPySpace).reverse.dropWhile isPySpace).reverse)

/-- Python `str.upper()` (ASCII; the configured tickers are ASCII). -/
def pyUpper (s : String) : String :=
  String.mk (s.data.map Char.toUpper)

/-- Helper for `pySplitComma`: split a character list at every `,`. -/
def splitCommaAux : List Char → List Char → List (List Char)
  | [], acc => [acc.reverse]
  | c :: cs, acc =>
    if c = ',' then acc.reverse :: splitCommaAux cs []
    else splitCommaAux cs (c :: acc)

/-- Python `s.split(",")`: in particular `"".split(",") == [""]`. -/
def pySplitComma (s : String) : List String :=
  (splitCommaAux s.data []).map String.mk

/-- Numeric value of a list of decimal digit characters. -/
def digitsToNat (ds : List Char) : ℕ :=
  ds.foldl (fun a c => a * 10 + (c.toNat - 48)) 0

/-- Python `float(s)` on the decimal forms used by the provider: optional
surrounding whitespace, optional sign, digits with an optional fractional
part (value `sign * ip.fp`, assembled as one integer fraction).  Returns
`none` where Python raises `ValueError`. -/
def pyFloat (s : String) : Option ℚ :=
  let cs := (pyStrip s).data
  let sgn : ℤ := match cs with
    | '-' :: _ => -1
    | _ => 1
  let body : List Char := match cs with
    | '-' :: r => r
    | '+' :: r => r
    | r => r
  let ip := body.takeWhile Char.isDigit
  let rest := body.dropWhile Char.isDigit
  match rest with
  | [] =>
    if ip.isEmpty then none
    else some (Rat.divInt (sgn * (digitsToNat ip : ℤ)) 1)
  | '.' :: fr =>
    let fp := fr.takeWhile Char.isDigit
    let rest2 := fr.dropWhile Char.isDigit
    if !rest2.isEmpty then none
    else if ip.isEmpty && fp.isEmpty then none
    else some (Rat.divInt
      (sgn * ((digitsToNat ip : ℤ) * 10 ^ fp.length + (digitsToNat fp : ℤ)))
      ((10 : ℤ) ^ fp.length))
  | _ => none

/-- Python `int(s)`: optional surrounding whitespace, optional sign,
decimal digits.  Returns `none` where Python raises `ValueError`. -/
def pyInt (s : String) : Option ℤ :=
  let cs := (pyStrip s).data
  let sgn : ℤ := match cs with
    | '-' :: _ => -1
    | _ => 1
  let body : List Char := match cs with
    | '-' :: r => r
    | '+' :: r => r
    | r => r
  if body.isEmpty then none
  else if body.all Char.isDigit then some (sgn * (digitsToNat body : ℤ))
  else none

/-- Python `s.replace("%", "")`: removes every `%` character. -/
def stripPercent (s : String) : String :=
  String.mk (s.data.filter (fun c => c != '%'))

/-- `get_api_key()`: the `ALPHA_VANTAGE_API_KEY` environment variable,
modelled as an `Option String` argument (`none` = unset).  Python's
`if not api_key` treats both `None` and the empty string as falsy. -/
def get_api_key (env : Option String) : String :=
  match env with
  | none => "demo"
  | some s => if s = "" then "demo" else s

/-- `get_symbols()`: split the `SYMBOLS` environment variable (defaulting
to the fixed six-ticker string) on commas, strip and upper-case each
token. -/
def get_symbols (env : Option String) : List String :=
  (pySplitComma (env.getD "AAPL,MSFT,GOOGL,AMZN,TSLA,NVDA")).map
    (fun s => pyUpper (pyStrip s))

/-- First-match lookup in an association list; models `dict.get`
(a Python `dict` has unique keys). -/
def dictFind {α : Type} : List (String × α) → String → Option α
  | [], _ => none
  | p :: rest, k => if p.1 = k then some p.2 else dictFind rest k

/-- Python `dict` assignment `d[k] = v`: overwrite the value in place if
the key is present (keeping its original position), append otherwise. -/
def dictInsert {α : Type} : List (String × α) → String → α → List (String × α)
  | [], k, v => [(k, v)]
  | p :: rest, k, v =>
    if p.1 = k then (k, v) :: rest else p :: dictInsert rest k v

/-- Run a fallible conversion over a list, aborting on the first failure;
models a Python loop of coercions inside a `try` block (an exception
discards everything built so far). -/
def mapOpt {α β : Type} (f : α → Option β) : List α → Option (List β)
  | [] => some []
  | x :: xs =>
    match f x, mapOpt f xs with
    | some y, some ys => some (y :: ys)
    | _, _ => none

/-- Insert into a sorted list, before the first element not `le`-below the
new one (so equal elements keep their original relative order). -/
def insort {α : Type} (le : α → α → Bool) (x : α) : List α → List α
  | [] => [x]
  | y :: ys => if le x y then x :: y :: ys else y :: insort le x ys

/-- Stable sort; models Python's `sorted` (Timsort is stable, and any two
stable sorts agree, so this insertion sort has the same result). -/
def pySorted {α : Type} (le : α → α → Bool) (l : List α) : List α :=
  l.foldr (insort le) []

/-- Code-point lexicographic comparison of character lists; this is how
Python compares strings. -/
def charListLE : List Char → List Char → Bool
  | [], _ => true
  | _ :: _, [] => false
  | c :: cs, d :: ds => if c = d then charListLE cs ds else decide (c < d)

/-- Python string `<=` (code-point lexicographic). -/
def strLE (a b : String) : Bool :=
  charListLE a.data b.data

/-- A normalized current quote, as built by `fetch_quote`. -/
structure Quote where
  symbol : String
  price : ℚ
  change : ℚ
  changePercent : ℚ
  «open» : ℚ
  high : ℚ
  low : ℚ
  volume : ℤ
  prevClose : ℚ
  latestTradingDay : String
deriving DecidableEq

/-- The decoded JSON payload of a `GLOBAL_QUOTE` response: the optional
`Error Message` and `Note` fields and the `Global Quote` sub-object
(absent sub-object = empty dict, as with `data.get("Global Quote", {})`). -/
structure QuotePayload where
  errorMessage : Option String
  note : Option String
  globalQuote : List (String × String)
deriving DecidableEq

/-- Result of one HTTP request: a raised `requests.RequestException`
(network error, timeout, non-2xx) or a decoded payload. -/
inductive Transport (α : Type) where
  | exn (msg : String)
  | ok (data : α)
deriving DecidableEq

/-- `float(payload.get(k, 0))`: a missing field coerces to `0.0`, a
present field goes through `float(...)` and may raise. -/
def getFloatField (values : List (String × String)) (k : String) : Option ℚ :=
  match dictFind values k with
  | none => some 0
  | some s => pyFloat s

/-- `int(payload.get(k, 0))`: a missing field coerces to `0`, a present
field goes through `int(...)` and may raise. -/
def getIntField (values : List (String × String)) (k : String) : Option ℤ :=
  match dictFind values k with
  | none => some 0
  | some s => pyInt s

/-- Field extraction of `fetch_quote`: each numeric field is read with a
default (`0`, or `"0%"` for the percent field, whose `%` characters are
removed before coercion) and coerced; a coercion failure (`ValueError`)
makes the whole quote fail. -/
def buildQuote (symbol : String) (q : List (String × String)) : Option Quote :=
  (getFloatField q "05. price").bind fun price =>
  (getFloatField q "09. change").bind fun change =>
  (pyFloat (stripPercent ((dictFind q "10. change percent").getD "0%"))).bind
    fun changePercent =>
  (getFloatField q "02. open").bind fun openPrice =>
  (getFloatField q "03. high").bind fun high =>
  (getFloatField q "04. low").bind fun low =>
  (getIntField q "06. volume").bind fun volume =>
  (getFloatField q "08. previous close").bind fun prevClose =>
  some { symbol := (dictFind q "01. symbol").getD symbol,
         price := price, change := change, changePercent := changePercent,
         «open» := openPrice, high := high, low := low, volume := volume,
         prevClose := prevClose,
         latestTradingDay := (dictFind q "07. latest trading day").getD "" }

/-- Outcome of `fetch_quote`.  In the source every non-`success` branch
returns `None` after printing a branch-specific message; the distinct
constructors model those distinct logged branches. -/
inductive QuoteResult where
  | success (q : Quote)
  | errorField (msg : String)
  | rateLimited
  | noData
  | requestFailed (e : String)
  | parseError
deriving DecidableEq

/-- The `None` / quote value seen by the caller of `fetch_quote`. -/
def QuoteResult.toOption : QuoteResult → Option Quote
  | .success q => some q
  | _ => none

/-- The message printed on each failure branch of `fetch_quote` (the
`ValueError` detail of the parse branch is elided). -/
def failureLog (symbol : String) : QuoteResult → Option String
  | .errorField m => some ("  Error for " ++ symbol ++ ": " ++ m)
  | .rateLimited => some "  API rate limit reached"
  | .noData => some ("  No data found for " ++ symbol)
  | .requestFailed e => some ("  Request failed for " ++ symbol ++ ": " ++ e)
  | .parseError => some ("  Parse error for " ++ symbol)
  | .success _ => none

/-- `fetch_quote(symbol, api_key)`: classify the transport result.  The
checks happen in source order: `Error Message`, then `Note`, then the
empty `Global Quote` sub-object, then field coercion. -/
def fetch_quote (symbol : String) (resp : Transport QuotePayload) : QuoteResult :=
  match resp with
  | .exn e => .requestFailed e
  | .ok data =>
    match data.errorMessage with
    | some m => .errorField m
    | none =>
      match data.note with
      | some _ => .rateLimited
      | none =>
        if data.globalQuote.isEmpty then .noData
        else
          match buildQuote symbol data.globalQuote with
          | some q => .success q
          | none => .parseError

/-- One daily bar, as built by `fetch_daily_history`. -/
structure HistoryPoint where
  date : String
  «open» : ℚ
  high : ℚ
  low : ℚ
  close : ℚ
  volume : ℤ
deriving DecidableEq

/-- The decoded JSON payload of a `TIME_SERIES_DAILY` response: optional
`Error Message` / `Note` fields and the `Time Series (Daily)` map of
date string to raw bar (itself a map of string fields). -/
structure HistPayload where
  errorMessage : Option String
  note : Option String
  timeSeries : List (String × List (String × String))
deriving DecidableEq

/-- Conversion of one `(date, values)` entry of the time series into a
`HistoryPoint`, with the defaults and coercions of the source. -/
def parseBar (date : String) (values : List (String × String)) : Option HistoryPoint :=
  (getFloatField values "1. open").bind fun openPrice =>
  (getFloatField values "2. high").bind fun high =>
  (getFloatField values "3. low").bind fun low =>
  (getFloatField values "4. close").bind fun close =>
  (getIntField values "5. volume").bind fun volume =>
  some { date := date, «open» := openPrice, high := high, low := low,
         close := close, volume := volume }

/-- Comparison used by `sorted(time_series.items())`: Python compares the
`(key, value)` tuples, which for a dict (unique keys) orders by the date
string. -/
def entryLE (a b : String × List (String × String)) : Bool :=
  strLE a.1 b.1

/-- `fetch_daily_history(symbol, api_key, output_size)`: an error or
rate-limit field, a transport failure, or any coercion failure yields
`[]`; otherwise the date-sorted entries are converted in order. -/
def fetch_daily_history (resp : Transport HistPayload) : List HistoryPoint :=
  match resp with
  | .exn _ => []
  | .ok data =>
    if data.errorMessage.isSome || data.note.isSome then []
    else
      match mapOpt (fun p => parseBar p.1 p.2) (pySorted entryLE data.timeSeries) with
      | some h => h
      | none => []

/-- Executable floor of a rational (`Int.ediv` with a positive
denominator is floor division). -/
def ratFloor (q : ℚ) : ℤ :=
  Int.ediv q.num (q.den : ℤ)

/-- Python's `round(x)` core: round half to even (banker's rounding).
The source rounds binary floats; exact-rational half-even rounding is the
idealization of that. -/
def roundHalfEven (q : ℚ) : ℤ :=
  let f := ratFloor q
  let r := q - (f : ℚ)
  if r < 1 / 2 then f
  else if 1 / 2 < r then f + 1
  else if f % 2 = 0 then f else f + 1

/-- Python `round(x, 2)`. -/
def pyRound2 (x : ℚ) : ℚ :=
  (roundHalfEven (x * 100) : ℚ) / 100

/-- The global `random` generator: an abstract stream of rationals with a
cursor that advances by one per draw. -/
structure Rng where
  stream : ℕ → ℚ
  idx : ℕ

/-- Advance the generator by one draw. -/
def Rng.next (g : Rng) : Rng :=
  ⟨g.stream, g.idx + 1⟩

/-- `random.uniform(lo, hi)`: the drawn value, clamped into `[lo, hi]`
(the only contract of `uniform` the source relies on). -/
def uniform (lo hi : ℚ) (g : Rng) : ℚ :=
  max lo (min hi (g.stream g.idx))

/-- `random.randint(lo, hi)`: an integer draw clamped into `[lo, hi]`. -/
def randint (lo hi : ℤ) (g : Rng) : ℤ :=
  max lo (min hi (ratFloor (g.stream g.idx)))

/-- Python `datetime.weekday()` over ordinal day numbers (day 0 is a
Monday): 0 = Monday … 6 = Sunday. -/
def weekday (d : ℤ) : ℤ :=
  d % 7

/-- One synthetic daily bar.  `date` is the ordinal day number whose
`%Y-%m-%d` rendering the source emits. -/
structure DemoPoint where
  date : ℤ
  «open» : ℚ
  high : ℚ
  low : ℚ
  close : ℚ
  volume : ℤ
deriving DecidableEq

/-- Loop body of `generate_demo_history`.  `rem = days - i` counts the
remaining steps, so the entry date is `now - rem`.  A weekend date is
skipped before any random draw; otherwise the five draws happen in source
order (change, volatility, high noise, low noise, volume) and the walked
price is clamped into `[0.5, 1.5]` times the running price.  Returns the
emitted points and the advanced generator. -/
def demoHistoryAux (now : ℤ) : ℚ → Rng → ℕ → List DemoPoint × Rng
  | _, g, 0 => ([], g)
  | price, g, rem + 1 =>
    let entryDate : ℤ := now - (rem + 1 : ℕ)
    if weekday entryDate ≥ 5 then
      demoHistoryAux now price g rem
    else
      let change := uniform (-(3 : ℚ) / 100) (35 / 1000) g * price
      let price1 := max (price * (1 / 2)) (min (price * (3 / 2)) (price + change))
      let volatility := uniform 1 4 g.next
      let point : DemoPoint :=
        { date := entryDate,
          «open» := pyRound2 (price1 - volatility),
          high := pyRound2 (price1 + volatility + uniform 0 2 g.next.next),
          low := pyRound2 (price1 - volatility - uniform 0 2 g.next.next.next),
          close := pyRound2 price1,
          volume := randint 20000000 80000000 g.next.next.next.next }
      let rest := demoHistoryAux now price1 g.next.next.next.next.next rem
      (point :: rest.1, rest.2)

/-- `generate_demo_history(current_price, days)`: a random walk starting
10% below `current_price`, over the `days` calendar days before `now`,
skipping weekends.  `days` defaults to 100 in the source and the only
call site uses the default. -/
def generate_demo_history (current_price : ℚ) (now : ℤ) (g : Rng) (days : ℕ) : List DemoPoint :=
  (demoHistoryAux now (current_price * (9 / 10)) g days).1

/-- The fixed base-price table of `generate_demo_data`. -/
def base_prices : List (String × ℚ) :=
  [("AAPL", 185), ("MSFT", 420), ("GOOGL", 175), ("AMZN", 220),
   ("TSLA", 175), ("NVDA", 140)]

/-- The synthetic quote record of one `generate_demo_data` iteration.
`latestTradingDay` is the ordinal day number of "now". -/
structure DemoQuote where
  symbol : String
  price : ℚ
  change : ℚ
  changePercent : ℚ
  «open» : ℚ
  high : ℚ
  low : ℚ
  volume : ℤ
  prevClose : ℚ
  latestTradingDay : ℤ
deriving DecidableEq

/-- The per-symbol record built in demo mode. -/
structure DemoRecord where
  quote : DemoQuote
  history : List DemoPoint
deriving DecidableEq

/-- One iteration of the `generate_demo_data` loop: the draws happen in
source order (price noise, change, then — while the quote dict literal is
evaluated — open, high, low, volume noise, then the history's draws), and
the unrounded price seeds the history walk. -/
def mkDemoRecord (symbol : String) (now : ℤ) (g : Rng) : DemoRecord × Rng :=
  let basePrice := (dictFind base_prices symbol).getD 100
  let price := basePrice + uniform (-5) 5 g
  let change := uniform (-3) 3 g.next
  let quote : DemoQuote :=
    { symbol := symbol,
      price := pyRound2 price,
      change := pyRound2 change,
      changePercent := pyRound2 (change / price * 100),
      «open» := pyRound2 (price - uniform 0 2 g.next.next),
      high := pyRound2 (price + uniform 0 3 g.next.next.next),
      low := pyRound2 (price - uniform 0 3 g.next.next.next.next),
      volume := randint 20000000 80000000 g.next.next.next.next.next,
      prevClose := pyRound2 (price - change),
      latestTradingDay := now }
  let hist := demoHistoryAux now (price * (9 / 10)) g.next.next.next.next.next.next 100
  ({ quote := quote, history := hist.1 }, hist.2)

/-- The `generate_demo_data` loop over the configured symbols,
accumulating into the `stocks` dict and threading the generator. -/
def demoLoop (now : ℤ) : List String → List (String × DemoRecord) → Rng → List (String × DemoRecord)
  | [], acc, _ => acc
  | s :: rest, acc, g =>
    let r := mkDemoRecord s now g
    demoLoop now rest (dictInsert acc s r.1) r.2

/-- `generate_demo_data(symbols)`. -/
def generate_demo_data (symbols : List String) (now : ℤ) (g : Rng) : List (String × DemoRecord) :=
  demoLoop now symbols [] g

/-- The per-symbol record built in live mode. -/
structure StockRecord where
  quote : Quote
  history : List HistoryPoint
deriving DecidableEq

/-- The live fetch loop of `main`: for each configured symbol in order,
fetch the quote; on success fetch the history and store the pair, on
`None` skip the symbol.  `qresp`/`hresp` give the transport result of
each request (one quote and at most one history request per symbol). -/
def liveLoop (qresp : String → Transport QuotePayload)
    (hresp : String → Transport HistPayload) :
    List String → List (String × StockRecord) → List (String × StockRecord)
  | [], acc => acc
  | s :: rest, acc =>
    match (fetch_quote s (qresp s)).toOption with
    | some q =>
      liveLoop qresp hresp rest
        (dictInsert acc s { quote := q, history := fetch_daily_history (hresp s) })
    | none => liveLoop qresp hresp rest acc

/-- A value of the `stocks` mapping: demo-mode or live-mode record. -/
inductive RunRecord where
  | demo (r : DemoRecord)
  | live (r : StockRecord)
deriving DecidableEq

/-- The persisted snapshot document. -/
structure Snapshot where
  lastUpdated : String
  symbols : List String
  stocks : List (String × RunRecord)
deriving DecidableEq

/-- The `stocks` mapping built by `main` before the emptiness check:
demo generation when the resolved key is the sentinel, otherwise the live
fetch loop. -/
def runStocks (apiKeyEnv symbolsEnv : Option String)
    (qresp : String → Transport QuotePayload)
    (hresp : String → Transport HistPayload)
    (now : ℤ) (g : Rng) : List (String × RunRecord) :=
  if get_api_key apiKeyEnv = "demo" then
    (generate_demo_data (get_symbols symbolsEnv) now g).map
      (fun p => (p.1, RunRecord.demo p.2))
  else
    (liveLoop qresp hresp (get_symbols symbolsEnv) []).map
      (fun p => (p.1, RunRecord.live p.2))

/-- `main()`: exit status and written snapshot (`none` = no write, the
`sys.exit(1)` path).  `ts` is the captured UTC timestamp string. -/
def mainRun (apiKeyEnv symbolsEnv : Option String)
    (qresp : String → Transport QuotePayload)
    (hresp : String → Transport HistPayload)
    (now : ℤ) (g : Rng) (ts : String) : ℕ × Option Snapshot :=
  let stocks := runStocks apiKeyEnv symbolsEnv qresp hresp now g
  if stocks.isEmpty then (1, none)
  else (0, some { lastUpdated := ts, symbols := stocks.map Prod.fst, stocks := stocks })

/-- Content of the output path after a run: a run that writes replaces
the prior snapshot wholesale; a run that exits without writing leaves it
as it was. -/
def fileAfter (prior : Option Snapshot) (run : ℕ × Option Snapshot) : Option Snapshot :=
  match run.2 with
  | none => prior
  | some s => some s

/-- The `days` calendar days before `now`, ascending:
`[now - days, …, now - 1]` — exactly the entry dates the history loop
ranges over. -/
def lastDays (now : ℤ) (days : ℕ) : List ℤ :=
  (List.range days).map (fun j : ℕ => now - (days : ℤ) + (j : ℤ))

/-- How many of the last `days` calendar days before `now` are weekdays. -/
def weekdaysAmongLast (now : ℤ) (days : ℕ) : ℕ :=
  ((lastDays now days).filter (fun d => decide (weekday d < 5))).length

theorem charListLE_iff_not_lt (a : List Char) :
    ∀ b, charListLE a b = true ↔ ¬ List.Lex (· < ·) b a := by
  induction a with
  | nil =>
    intro b
    simp only [charListLE, true_iff]
    exact List.Lex.not_nil_right _ b
  | cons c cs ih =>
    intro b
    cases b with
    | nil =>
      simp only [charListLE, Bool.false_eq_true, false_iff, not_not]
      exact List.Lex.nil
    | cons d ds =>
      simp only [charListLE]
      by_cases hcd : c = d
      · subst hcd
        rw [if_pos rfl, ih ds]
        constructor
        · intro h hlt
          cases hlt with
          | cons h2 => exact h h2
          | rel h2 => exact lt_irrefl c h2
        · intro h h2
          exact h (List.Lex.cons h2)
      · rw [if_neg hcd]
        simp only [decide_eq_true_eq]
        constructor
        · intro hlt hdc
          cases hdc with
          | cons h2 => exact hcd rfl
          | rel h2 => exact asymm hlt h2
        · intro h
          rcases lt_trichotomy c d with hl | he | hg
          · exact hl
          · exact absurd he hcd
          · exact absurd (List.Lex.rel hg) h

theorem strLE_iff (a b : String) : strLE a b = true ↔ a ≤ b := by
  have h2 : ¬ b.toList < a.toList ↔ a.toList ≤ b.toList := not_lt
  rw [String.le_iff_toList_le, ← h2]
  exact charListLE_iff_not_lt a.data b.data

theorem insort_perm {α : Type} (le : α → α → Bool) (x : α) :
    ∀ l, List.Perm (insort le x l) (x :: l) := by
  intro l
  induction l with
  | nil => simp [insort]
  | cons y ys ih =>
    simp only [insort]
    by_cases h : le x y = true
    · rw [if_pos h]
    · rw [if_neg h]
      exact (ih.cons y).trans (List.Perm.swap x y ys)

theorem pySorted_perm {α : Type} (le : α → α → Bool) :
    ∀ l, List.Perm (pySorted le l) l := by
  intro l
  induction l with
  | nil => rfl
  | cons y ys ih =>
    show List.Perm (insort le y (pySorted le ys)) (y :: ys)
    exact (insort_perm le y (pySorted le ys)).trans (ih.cons y)

theorem insort_pairwise {α : Type} (le : α → α → Bool)
    (htrans : ∀ a b c, le a b = true → le b c = true → le a c = true)
    (htot : ∀ a b, le a b = true ∨ le b a = true) (x : α) :
    ∀ l, l.Pairwise (fun a b => le a b = true) →
      (insort le x l).Pairwise (fun a b => le a b = true) := by
  intro l
  induction l with
  | nil =>
    intro _
    simp [insort]
  | cons y ys ih =>
    intro hp
    rcases List.pairwise_cons.mp hp with ⟨hy, hys⟩
    simp only [insort]
    by_cases h : le x y = true
    · rw [if_pos h]
      refine List.pairwise_cons.mpr ⟨?_, hp⟩
      intro z hz
      rcases List.mem_cons.mp hz with rfl | hz'
      · exact h
      · exact htrans x y z h (hy z hz')
    · rw [if_neg h]
      have hyx : le y x = true := (htot x y).resolve_left h
      refine List.pairwise_cons.mpr ⟨?_, ih hys⟩
      intro z hz
      have hz2 : z ∈ x :: ys := (insort_perm le x ys).mem_iff.mp hz
      rcases List.mem_cons.mp hz2 with rfl | hz'
      · exact hyx
      · exact hy z hz'

theorem pySorted_pairwise {α : Type} (le : α → α → Bool)
    (htrans : ∀ a b c, le a b = true → le b c = true → le a c = true)
    (htot : ∀ a b, le a b = true ∨ le b a = true) :
    ∀ l : List α, (pySorted le l).Pairwise (fun a b => le a b = true) := by
  intro l
  induction l with
  | nil => simp [pySorted]
  | cons y ys ih =>
    show (insort le y (pySorted le ys)).Pairwise _
    exact insort_pairwise le htrans htot y (pySorted le ys) ih

theorem mapOpt_eq_some_of_forall {α β : Type} (f : α → Option β) :
    ∀ l : List α, (∀ x ∈ l, (f x).isSome = true) → ∃ r, mapOpt f l = some r := by
  intro l
  induction l with
  | nil => exact fun _ => ⟨[], rfl⟩
  | cons x xs ih =>
    intro h
    obtain ⟨y, hy⟩ := Option.isSome_iff_exists.mp (h x (List.mem_cons_self x xs))
    obtain ⟨r, hr⟩ := ih (fun z hz => h z (List.mem_cons_of_mem x hz))
    exact ⟨y :: r, by simp [mapOpt, hy, hr]⟩

theorem mapOpt_length {α β : Type} (f : α → Option β) :
    ∀ l r, mapOpt f l = some r → r.length = l.length := by
  intro l
  induction l with
  | nil =>
    intro r h
    simp only [mapOpt, Option.some.injEq] at h
    simp [← h]
  | cons x xs ih =>
    intro r h
    cases hfx : f x with
    | none => simp [mapOpt, hfx] at h
    | some y =>
      cases hxs : mapOpt f xs with
      | none => simp [mapOpt, hfx, hxs] at h
      | some ys =>
        simp only [mapOpt, hfx, hxs, Option.some.injEq] at h
        simp [← h, ih ys hxs]

theorem parseBar_date (d : String) (v : List (String × String)) (hp : HistoryPoint)
    (h : parseBar d v = some hp) : hp.date = d := by
  simp only [parseBar, Option.bind_eq_some, Option.some.injEq] at h
  obtain ⟨o1, -, o2, -, o3, -, o4, -, o5, -, hfin⟩ := h
  rw [← hfin]

theorem mapOpt_parseBar_dates :
    ∀ (l : List (String × List (String × String))) (r : List HistoryPoint),
      mapOpt (fun p => parseBar p.1 p.2) l = some r →
      r.map HistoryPoint.date = l.map Prod.fst := by
  intro l
  induction l with
  | nil =>
    intro r h
    simp only [mapOpt, Option.some.injEq] at h
    simp [← h]
  | cons x xs ih =>
    intro r h
    cases hfx : parseBar x.1 x.2 with
    | none => simp [mapOpt, hfx] at h
    | some y =>
      cases hxs : mapOpt (fun p => parseBar p.1 p.2) xs with
      | none => simp [mapOpt, hfx, hxs] at h
      | some ys =>
        simp only [mapOpt, hfx, hxs, Option.some.injEq] at h
        simp [← h, ih ys hxs, parseBar_date x.1 x.2 y hfx]

theorem dictFind_insert_self {α : Type} (d : List (String × α)) (k : String) (v : α) :
    dictFind (dictInsert d k v) k = some v := by
  induction d with
  | nil => simp [dictInsert, dictFind]
  | cons p rest ih =>
    simp only [dictInsert]
    by_cases h : p.1 = k
    · rw [if_pos h]
      simp [dictFind]
    · rw [if_neg h]
      simp [dictFind, h, ih]

theorem dictFind_insert_ne {α : Type} (d : List (String × α)) (k k' : String) (v : α)
    (hne : k' ≠ k) : dictFind (dictInsert d k v) k' = dictFind d k' := by
  induction d with
  | nil =>
    simp only [dictInsert, dictFind]
    rw [if_neg (fun h : k = k' => hne h.symm)]
  | cons p rest ih =>
    simp only [dictInsert]
    by_cases h : p.1 = k
    · rw [if_pos h]
      simp only [dictFind]
      rw [if_neg (fun h2 => hne h2.symm), if_neg (by rw [h]; exact fun h2 => hne h2.symm)]
    · rw [if_neg h]
      simp only [dictFind]
      by_cases h2 : p.1 = k'
      · rw [if_pos h2, if_pos h2]
      · rw [if_neg h2, if_neg h2]
        exact ih

theorem mem_keys_insert {α : Type} (d : List (String × α)) (k a : String) (v : α) :
    a ∈ (dictInsert d k v).map Prod.fst ↔ a ∈ d.map Prod.fst ∨ a = k := by
  induction d with
  | nil => simp [dictInsert]
  | cons p rest ih =>
    simp only [dictInsert]
    by_cases h : p.1 = k
    · rw [if_pos h]
      simp only [List.map_cons, List.mem_cons]
      subst h
      tauto
    · rw [if_neg h]
      simp only [List.map_cons, List.mem_cons, ih]
      tauto

theorem nodup_keys_insert {α : Type} (d : List (String × α)) (k : String) (v : α)
    (hd : (d.map Prod.fst).Nodup) : ((dictInsert d k v).map Prod.fst).Nodup := by
  induction d with
  | nil => simp [dictInsert]
  | cons p rest ih =>
    simp only [List.map_cons, List.nodup_cons] at hd
    simp only [dictInsert]
    by_cases h : p.1 = k
    · rw [if_pos h]
      simp only [List.map_cons, List.nodup_cons]
      exact ⟨by rw [← h]; exact hd.1, hd.2⟩
    · rw [if_neg h]
      simp only [List.map_cons, List.nodup_cons]
      refine ⟨?_, ih hd.2⟩
      rw [mem_keys_insert]
      rintro (hmem | rfl)
      · exact hd.1 hmem
      · exact h rfl

theorem dictFind_eq_none_iff {α : Type} (d : List (String × α)) (k : String) :
    dictFind d k = none ↔ k ∉ d.map Prod.fst := by
  induction d with
  | nil => simp [dictFind]
  | cons p rest ih =>
    simp only [dictFind, List.map_cons, List.mem_cons]
    by_cases h : p.1 = k
    · rw [if_pos h]
      simp [h]
    · rw [if_neg h]
      simp only [ih]
      constructor
      · intro hnot hor
        rcases hor with rfl | hmem
        · exact h rfl
        · exact hnot hmem
      · intro hnot hmem
        exact hnot (Or.inr hmem)

theorem liveLoop_find_not_mem (qresp : String → Transport QuotePayload)
    (hresp : String → Transport HistPayload) (sym : String) :
    ∀ (syms : List String) (acc : List (String × StockRecord)), sym ∉ syms →
      dictFind (liveLoop qresp hresp syms acc) sym = dictFind acc sym := by
  intro syms
  induction syms with
  | nil => intro acc _; rfl
  | cons s rest ih =>
    intro acc hmem
    have hs : s ≠ sym := fun h => hmem (h ▸ List.mem_cons_self s rest)
    have hrest : sym ∉ rest := fun h => hmem (List.mem_cons_of_mem s h)
    simp only [liveLoop]
    cases hq : (fetch_quote s (qresp s)).toOption with
    | none => exact ih acc hrest
    | some q =>
      rw [ih _ hrest, dictFind_insert_ne _ _ _ _ (fun h => hs h.symm)]

theorem liveLoop_find_of_fail (qresp : String → Transport QuotePayload)
    (hresp : String → Transport HistPayload) (sym : String)
    (hfail : (fetch_quote sym (qresp sym)).toOption = none) :
    ∀ (syms : List String) (acc : List (String × StockRecord)),
      dictFind (liveLoop qresp hresp syms acc) sym = dictFind acc sym := by
  intro syms
  induction syms with
  | nil => intro acc; rfl
  | cons s rest ih =>
    intro acc
    simp only [liveLoop]
    by_cases hs : s = sym
    · subst hs
      rw [hfail]
      exact ih acc
    · cases hq : (fetch_quote s (qresp s)).toOption with
      | none => exact ih acc
      | some q =>
        rw [ih _, dictFind_insert_ne _ _ _ _ (fun h => hs h.symm)]

theorem liveLoop_find_of_success (qresp : String → Transport QuotePayload)
    (hresp : String → Transport HistPayload) (sym : String) (q : Quote)
    (hq : (fetch_quote sym (qresp sym)).toOption = some q) :
    ∀ (syms : List String) (acc : List (String × StockRecord)), sym ∈ syms →
      dictFind (liveLoop qresp hresp syms acc) sym =
        some { quote := q, history := fetch_daily_history (hresp sym) } := by
  intro syms
  induction syms with
  | nil => intro acc h; cases h
  | cons s rest ih =>
    intro acc hmem
    simp only [liveLoop]
    by_cases hs : s = sym
    · subst hs
      rw [hq]
      by_cases hrest : s ∈ rest
      · exact ih _ hrest
      · rw [liveLoop_find_not_mem qresp hresp s rest _ hrest, dictFind_insert_self]
    · have hrest : sym ∈ rest := by
        rcases List.mem_cons.mp hmem with h | h
        · exact absurd h.symm hs
        · exact h
      cases hq2 : (fetch_quote s (qresp s)).toOption with
      | none => exact ih acc hrest
      | some q2 => exact ih _ hrest

theorem liveLoop_keys_nodup (qresp : String → Transport QuotePayload)
    (hresp : String → Transport HistPayload) :
    ∀ (syms : List String) (acc : List (String × StockRecord)),
      (acc.map Prod.fst).Nodup → ((liveLoop qresp hresp syms acc).map Prod.fst).Nodup := by
  intro syms
  induction syms with
  | nil => intro acc h; exact h
  | cons s rest ih =>
    intro acc hacc
    simp only [liveLoop]
    cases hq : (fetch_quote s (qresp s)).toOption with
    | none => exact ih acc hacc
    | some q => exact ih _ (nodup_keys_insert acc s _ hacc)

theorem demoLoop_keys_nodup (now : ℤ) :
    ∀ (syms : List String) (acc : List (String × DemoRecord)) (g : Rng),
      (acc.map Prod.fst).Nodup → ((demoLoop now syms acc g).map Prod.fst).Nodup := by
  intro syms
  induction syms with
  | nil => intro acc g h; exact h
  | cons s rest ih =>
    intro acc g hacc
    simp only [demoLoop]
    exact ih _ _ (nodup_keys_insert acc s _ hacc)

theorem demoLoop_mem_keys (now : ℤ) (a : String) :
    ∀ (syms : List String) (acc : List (String × DemoRecord)) (g : Rng),
      (a ∈ (demoLoop now syms acc g).map Prod.fst ↔ a ∈ acc.map Prod.fst ∨ a ∈ syms) := by
  intro syms
  induction syms with
  | nil =>
    intro acc g
    simp [demoLoop]
  | cons s rest ih =>
    intro acc g
    simp only [demoLoop]
    rw [ih]
    rw [mem_keys_insert]
    simp only [List.mem_cons]
    tauto

theorem mapped_keys {α β : Type} (f : α → β) (l : List (String × α)) :
    (l.map (fun p => (p.1, f p.2))).map Prod.fst = l.map Prod.fst := by
  induction l with
  | nil => rfl
  | cons p rest ih => simp [ih]

theorem dictFind_mapped {α β : Type} (f : α → β) (k : String) :
    ∀ l : List (String × α),
      dictFind (l.map (fun p => (p.1, f p.2))) k = (dictFind l k).map f := by
  intro l
  induction l with
  | nil => rfl
  | cons p rest ih =>
    simp only [List.map_cons, dictFind]
    by_cases h : p.1 = k
    · rw [if_pos h, if_pos h]
      rfl
    · rw [if_neg h, if_neg h]
      exact ih

theorem lastDays_succ (now : ℤ) (r : ℕ) :
    lastDays now (r + 1) = (now - ((r + 1 : ℕ) : ℤ)) :: lastDays now r := by
  unfold lastDays
  rw [List.range_succ_eq_map, List.map_cons, List.map_map]
  have hf : ((fun j : ℕ => now - ((r + 1 : ℕ) : ℤ) + (j : ℤ)) ∘ Nat.succ) =
      fun j : ℕ => now - (r : ℤ) + (j : ℤ) := by
    funext j
    simp only [Function.comp]
    push_cast
    ring
  rw [hf]
  congr 1
  · push_cast
    ring

theorem lastDays_length (now : ℤ) (days : ℕ) : (lastDays now days).length = days := by
  simp [lastDays]

theorem lastDays_pairwise (now : ℤ) (days : ℕ) :
    (lastDays now days).Pairwise (· < ·) := by
  unfold lastDays
  rw [List.pairwise_map]
  exact (List.pairwise_lt_range days).imp (by intro a b h; omega)

theorem demoHistoryAux_dates (now : ℤ) :
    ∀ (rem : ℕ) (price : ℚ) (g : Rng),
      (demoHistoryAux now price g rem).1.map DemoPoint.date =
        (lastDays now rem).filter (fun d => decide (weekday d < 5)) := by
  intro rem
  induction rem with
  | zero => intro price g; rfl
  | succ r ih =>
    intro price g
    rw [lastDays_succ, List.filter_cons]
    simp only [demoHistoryAux]
    by_cases hw : weekday (now - ((r + 1 : ℕ) : ℤ)) ≥ 5
    · rw [if_pos hw]
      have hd : decide (weekday (now - ((r + 1 : ℕ) : ℤ)) < 5) = false := by
        simp only [decide_eq_false_iff_not, not_lt]
        exact hw
      rw [hd]
      simp only [Bool.false_eq_true, if_false]
      exact ih price g
    · rw [if_neg hw]
      have hd : decide (weekday (now - ((r + 1 : ℕ) : ℤ)) < 5) = true := by
        simp only [decide_eq_true_eq]
        exact lt_of_not_ge hw
      rw [hd]
      simp only [if_true, List.map_cons]
      rw [ih]

theorem exists_weekend_in_lastDays (now : ℤ) (days : ℕ) (h6 : 6 ≤ days) :
    ∃ d ∈ lastDays now days, ¬ (weekday d < 5) := by
  by_cases hcase : (now - (days : ℤ)) % 7 = 6
  · refine ⟨now - (days : ℤ) + ((0 : ℕ) : ℤ), ?_, ?_⟩
    · simp only [lastDays, List.mem_map]
      exact ⟨0, List.mem_range.mpr (by omega), rfl⟩
    · simp only [weekday, not_lt]
      omega
  · have h5 : ((5 - (now - (days : ℤ)) % 7).toNat : ℤ) = 5 - (now - (days : ℤ)) % 7 :=
      Int.toNat_of_nonneg (by omega)
    refine ⟨now - (days : ℤ) + ((5 - (now - (days : ℤ)) % 7).toNat : ℤ), ?_, ?_⟩
    · simp only [lastDays, List.mem_map]
      exact ⟨(5 - (now - (days : ℤ)) % 7).toNat, List.mem_range.mpr (by omega), rfl⟩
    · simp only [weekday, not_lt]
      omega

/-- Claim C7: `resolve_symbols` returns exactly the comma-split tokens of
the configured string, each stripped and upper-cased, in order and with
duplicates preserved; an empty or whitespace-only configured value yields
a list containing one empty-string symbol. -/
theorem claim_C7 :
    (∀ s : String,
      get_symbols (some s) = (pySplitComma s).map (fun t => pyUpper (pyStrip t))) ∧
    get_symbols (some " aapl, Msft ,googl") = ["AAPL", "MSFT", "GOOGL"] ∧
    get_symbols (some "A,A") = ["A", "A"] ∧
    get_symbols (some "") = [""] ∧
    get_symbols (some "   ") = [""] :=
  ⟨fun _ => rfl, by decide, by decide, by decide, by decide⟩

/-- Claim C8: with no environment overrides `resolve_symbols` yields the
fixed six-symbol list, and `resolve_credential` yields the sentinel
`"demo"` whenever the variable is absent or empty. -/
theorem claim_C8 :
    get_symbols none = ["AAPL", "MSFT", "GOOGL", "AMZN", "TSLA", "NVDA"] ∧
    get_api_key none = "demo" ∧
    (∀ s : String, s = "" → get_api_key (some s) = "demo") :=
  ⟨by decide, rfl, fun s h => by rw [h]; decide⟩

/-- Witness for C8 at the concrete empty credential string. -/
theorem claim_C8_witness : get_api_key (some "") = "demo" :=
  claim_C8.2.2 "" rfl

/-- Claim C4: `fetch_quote` never raises — every input yields a result
(`toOption` models the `Quote | None` seen by the caller), and each of
the five failure scenarios (error-message field, rate-limit note, empty
quote sub-object, transport failure, numeric-coercion failure) maps to
the absent marker, with the five failure branches carrying pairwise
distinct log messages. -/
theorem claim_C4 :
    (∀ (sym : String) (resp : Transport QuotePayload),
      (fetch_quote sym resp).toOption = none ∨
        ∃ q, (fetch_quote sym resp).toOption = some q) ∧
    (∀ (sym e : String), (fetch_quote sym (.exn e)).toOption = none) ∧
    (∀ (sym : String) (data : QuotePayload), data.errorMessage.isSome = true →
      (fetch_quote sym (.ok data)).toOption = none) ∧
    (∀ (sym : String) (data : QuotePayload), data.note.isSome = true →
      (fetch_quote sym (.ok data)).toOption = none) ∧
    (∀ (sym : String) (em nt : Option String),
      (fetch_quote sym (.ok ⟨em, nt, []⟩)).toOption = none) ∧
    (∀ (sym s : String) (q : List (String × String)),
      dictFind q "05. price" = some s → pyFloat s = none →
      (fetch_quote sym (.ok ⟨none, none, q⟩)).toOption = none) ∧
    List.Pairwise (· ≠ ·)
      [failureLog "IBM" (.errorField "bad symbol"), failureLog "IBM" .rateLimited,
       failureLog "IBM" .noData, failureLog "IBM" (.requestFailed "timeout"),
       failureLog "IBM" .parseError] := by
  refine ⟨?_, ?_, ?_, ?_, ?_, ?_, ?_⟩
  · intro sym resp
    cases h : (fetch_quote sym resp).toOption with
    | none => exact Or.inl rfl
    | some q => exact Or.inr ⟨q, rfl⟩
  · intro sym e
    rfl
  · intro sym data hsome
    obtain ⟨em, nt, gq⟩ := data
    obtain ⟨m, rfl⟩ := Option.isSome_iff_exists.mp hsome
    rfl
  · intro sym data hsome
    obtain ⟨em, nt, gq⟩ := data
    obtain ⟨m, rfl⟩ := Option.isSome_iff_exists.mp hsome
    cases em with
    | none => rfl
    | some m2 => rfl
  · intro sym em nt
    cases em with
    | none =>
      cases nt with
      | none => rfl
      | some m => rfl
    | some m => rfl
  · intro sym s q hfind hparse
    have hq : q.isEmpty = false := by
      cases q with
      | nil => simp [dictFind] at hfind
      | cons p rest => rfl
    simp only [fetch_quote, buildQuote, getFloatField, hfind, hparse, hq,
      Bool.false_eq_true, if_false, Option.none_bind, QuoteResult.toOption]
  · decide

/-- Witness for C4: the coercion-failure scenario at a concrete payload
whose price field is not a number. -/
theorem claim_C4_witness :
    (fetch_quote "AAPL" (.ok ⟨none, none, [("05. price", "oops")]⟩)).toOption = none :=
  claim_C4.2.2.2.2.2.1 "AAPL" "oops" [("05. price", "oops")] (by decide) (by decide)

/-- Claim C6: for a non-empty quote payload the percent-change field has
its `%` removed before coercion (`"-0.95%"` gives `changePercent = -0.95`,
`"123.45"` gives `price = 123.45`), and every omitted numeric field
defaults to `0` (volume to `0`) with the record still a success. -/
theorem claim_C6 :
    (∀ (sym : String) (q : List (String × String)), q ≠ [] →
      dictFind q "05. price" = none → dictFind q "09. change" = none →
      dictFind q "10. change percent" = none → dictFind q "02. open" = none →
      dictFind q "03. high" = none → dictFind q "04. low" = none →
      dictFind q "06. volume" = none → dictFind q "08. previous close" = none →
      fetch_quote sym (.ok ⟨none, none, q⟩) =
        .success { symbol := (dictFind q "01. symbol").getD sym,
                   price := 0, change := 0, changePercent := 0, «open» := 0,
                   high := 0, low := 0, volume := 0, prevClose := 0,
                   latestTradingDay := (dictFind q "07. latest trading day").getD "" }) ∧
    (∀ s : String, '%' ∉ s.data → stripPercent (s ++ "%") = s) ∧
    (∃ qq : Quote,
      fetch_quote "IBM" (.ok ⟨none, none,
        [("05. price", "123.45"), ("09. change", "-1.20"),
         ("10. change percent", "-0.95%")]⟩) = .success qq ∧
      qq.price = 123.45 ∧ qq.change = -1.2 ∧ qq.changePercent = -0.95 ∧
      qq.«open» = 0 ∧ qq.high = 0 ∧ qq.low = 0 ∧ qq.volume = 0 ∧
      qq.prevClose = 0) := by
  refine ⟨?_, ?_, ?_⟩
  · intro sym q hne h1 h2 h3 h4 h5 h6 h7 h8
    have hq : q.isEmpty = false := by
      cases q with
      | nil => exact absurd rfl hne
      | cons p rest => rfl
    have hp : pyFloat (stripPercent "0%") = some 0 := by decide
    simp only [fetch_quote, hq, Bool.false_eq_true, if_false, buildQuote,
      getFloatField, getIntField, h1, h2, h3, h4, h5, h6, h7, h8,
      Option.getD_none, hp, Option.some_bind]
  · intro s h
    have h1 : List.filter (fun c => c != '%') ['%'] = [] := by decide
    have h2 : List.filter (fun c => c != '%') s.data = s.data :=
      List.filter_eq_self.mpr (fun a ha => bne_iff_ne.mpr (fun he => h (he ▸ ha)))
    show String.mk ((s ++ "%").data.filter (fun c => c != '%')) = s
    rw [String.data_append s "%", List.filter_append, h1, h2, List.append_nil]
  · refine ⟨{ symbol := "IBM", price := Rat.divInt 12345 100,
              change := Rat.divInt (-120) 100,
              changePercent := Rat.divInt (-95) 100,
              «open» := 0, high := 0, low := 0, volume := 0, prevClose := 0,
              latestTradingDay := "" }, by decide, ?_, ?_, ?_, rfl, rfl, rfl, rfl, rfl⟩
    · show Rat.divInt 12345 100 = (123.45 : ℚ)
      rw [Rat.divInt_eq_div]
      norm_num
    · show Rat.divInt (-120) 100 = (-1.2 : ℚ)
      rw [Rat.divInt_eq_div]
      norm_num
    · show Rat.divInt (-95) 100 = (-0.95 : ℚ)
      rw [Rat.divInt_eq_div]
      norm_num

/-- Witness for C6: the defaults clause at a payload that only carries a
symbol field. -/
theorem claim_C6_witness :
    fetch_quote "IBM" (.ok ⟨none, none, [("01. symbol", "INTC")]⟩) =
      .success { symbol := (dictFind [("01. symbol", "INTC")] "01. symbol").getD "IBM",
                 price := 0, change := 0, changePercent := 0, «open» := 0,
                 high := 0, low := 0, volume := 0, prevClose := 0,
                 latestTradingDay :=
                   (dictFind [("01. symbol", "INTC")] "07. latest trading day").getD "" } :=
  claim_C6.1 "IBM" [("01. symbol", "INTC")] (by decide) (by decide) (by decide)
    (by decide) (by decide) (by decide) (by decide) (by decide) (by decide)

theorem entryLE_trans (a b c : String × List (String × String))
    (hab : entryLE a b = true) (hbc : entryLE b c = true) : entryLE a c = true :=
  (strLE_iff a.1 c.1).mpr (le_trans ((strLE_iff a.1 b.1).mp hab) ((strLE_iff b.1 c.1).mp hbc))

theorem entryLE_total (a b : String × List (String × String)) :
    entryLE a b = true ∨ entryLE b a = true := by
  rcases le_total a.1 b.1 with h | h
  · exact Or.inl ((strLE_iff a.1 b.1).mpr h)
  · exact Or.inr ((strLE_iff b.1 a.1).mpr h)

/-- Claim C3: for every response map whose bars all coerce,
`fetch_daily_history` returns one `HistoryPoint` per entry, with the
dates sorted ascending (and the dates a permutation of the map's keys);
in particular the 03/01/02 example comes out in 01/02/03 order. -/
theorem claim_C3 :
    (∀ ts : List (String × List (String × String)),
      (∀ p ∈ ts, (parseBar p.1 p.2).isSome = true) →
      (fetch_daily_history (.ok ⟨none, none, ts⟩)).length = ts.length ∧
      List.Sorted (· ≤ ·)
        ((fetch_daily_history (.ok ⟨none, none, ts⟩)).map HistoryPoint.date) ∧
      List.Perm ((fetch_daily_history (.ok ⟨none, none, ts⟩)).map HistoryPoint.date)
        (ts.map Prod.fst)) ∧
    (fetch_daily_history (.ok ⟨none, none,
      [("2024-01-03", []), ("2024-01-01", []), ("2024-01-02", [])]⟩)).map
        HistoryPoint.date = ["2024-01-01", "2024-01-02", "2024-01-03"] := by
  constructor
  · intro ts hall
    have hall2 : ∀ p ∈ pySorted entryLE ts, (parseBar p.1 p.2).isSome = true :=
      fun p hp => hall p ((pySorted_perm entryLE ts).mem_iff.mp hp)
    obtain ⟨r, hr⟩ := mapOpt_eq_some_of_forall _ (pySorted entryLE ts) hall2
    have hfd : fetch_daily_history (.ok ⟨none, none, ts⟩) = r := by
      simp only [fetch_daily_history, Option.isSome_none, Bool.or_self,
        Bool.false_eq_true, if_false, hr]
    have hdates : (fetch_daily_history (.ok ⟨none, none, ts⟩)).map HistoryPoint.date =
        (pySorted entryLE ts).map Prod.fst := by
      rw [hfd]
      exact mapOpt_parseBar_dates _ r hr
    refine ⟨?_, ?_, ?_⟩
    · rw [hfd]
      exact (mapOpt_length _ _ r hr).trans (pySorted_perm entryLE ts).length_eq
    · rw [hdates]
      show ((pySorted entryLE ts).map Prod.fst).Pairwise (· ≤ ·)
      rw [List.pairwise_map]
      exact (pySorted_pairwise entryLE entryLE_trans entryLE_total ts).imp
        (fun h => (strLE_iff _ _).mp h)
    · rw [hdates]
      exact (pySorted_perm entryLE ts).map Prod.fst
  · decide

/-- Witness for C3 at the concrete three-entry map. -/
theorem claim_C3_witness :
    (fetch_daily_history (.ok ⟨none, none,
      [("2024-01-03", []), ("2024-01-01", []), ("2024-01-02", [])]⟩)).length =
      ([("2024-01-03", ([] : List (String × String))), ("2024-01-01", []),
        ("2024-01-02", [])]).length ∧
    List.Sorted (· ≤ ·)
      ((fetch_daily_history (.ok ⟨none, none,
        [("2024-01-03", []), ("2024-01-01", []), ("2024-01-02", [])]⟩)).map
          HistoryPoint.date) ∧
    List.Perm
      ((fetch_daily_history (.ok ⟨none, none,
        [("2024-01-03", []), ("2024-01-01", []), ("2024-01-02", [])]⟩)).map
          HistoryPoint.date)
      (([("2024-01-03", ([] : List (String × String))), ("2024-01-01", []),
        ("2024-01-02", [])]).map Prod.fst) :=
  claim_C3.1 [("2024-01-03", []), ("2024-01-01", []), ("2024-01-02", [])] (by decide)

/-- Claim C5 (amended): every emitted synthetic-history date is a weekday,
the emitted count is exactly the number of weekdays among the last `days`
calendar days, and the sequence has at most `days` entries — strictly
fewer whenever `days ≥ 6` (for `days ≤ 5` a window of only weekdays makes
the count equal to `days`, so "fewer than `days`" does not hold for every
call). -/
theorem claim_C5 (p : ℚ) (now : ℤ) (g : Rng) (days : ℕ) :
    (∀ pt ∈ generate_demo_history p now g days, weekday pt.date < 5) ∧
    (generate_demo_history p now g days).length = weekdaysAmongLast now days ∧
    (generate_demo_history p now g days).length ≤ days ∧
    (6 ≤ days → (generate_demo_history p now g days).length < days) := by
  have hg : generate_demo_history p now g days =
      (demoHistoryAux now (p * (9 / 10)) g days).1 := rfl
  have hdates : (generate_demo_history p now g days).map DemoPoint.date =
      (lastDays now days).filter (fun d => decide (weekday d < 5)) := by
    rw [hg]
    exact demoHistoryAux_dates now days (p * (9 / 10)) g
  have hlen : (generate_demo_history p now g days).length =
      ((lastDays now days).filter (fun d => decide (weekday d < 5))).length := by
    rw [← hdates]
    exact (List.length_map _ _).symm
  refine ⟨?_, ?_, ?_, ?_⟩
  · intro pt hpt
    have hmem : pt.date ∈ (generate_demo_history p now g days).map DemoPoint.date :=
      List.mem_map_of_mem _ hpt
    rw [hdates] at hmem
    simpa using (List.mem_filter.mp hmem).2
  · exact hlen
  · rw [hlen]
    exact le_trans (List.length_filter_le _ _) (le_of_eq (lastDays_length now days))
  · intro h6
    obtain ⟨d, hd, hw⟩ := exists_weekend_in_lastDays now days h6
    rw [hlen]
    calc ((lastDays now days).filter (fun d => decide (weekday d < 5))).length
        < (lastDays now days).length :=
          List.length_filter_lt_length_iff_exists.mpr ⟨d, hd, by simpa using hw⟩
      _ = days := lastDays_length now days

/-- Counterexample for C5 as stated: with `days = 5` and "now" such that
the five preceding days are Monday through Friday, every date is a
weekday and exactly `days` entries are emitted, so the sequence does not
have fewer than `days` entries. -/
theorem claim_C5_counterexample :
    ¬ ((generate_demo_history 100 12 ⟨fun _ => 0, 0⟩ 5).length < 5) := by decide

/-- Witness for C5 at `days = 7`, where the strict bound applies. -/
theorem claim_C5_witness :
    (generate_demo_history 100 12 ⟨fun _ => 0, 0⟩ 7).length < 7 :=
  (claim_C5 100 12 ⟨fun _ => 0, 0⟩ 7).2.2.2 (by decide)

/-- Claim C10: for `days ≥ 1` the emitted synthetic-history dates are
strictly increasing (hence pairwise distinct).  Dates are ordinal day
numbers whose `%Y-%m-%d` rendering is strictly monotone, so this is the
string-level strict ordering of the source's output. -/
theorem claim_C10 (p : ℚ) (now : ℤ) (g : Rng) (days : ℕ) (h1 : 1 ≤ days) :
    List.Pairwise (· < ·) ((generate_demo_history p now g days).map DemoPoint.date) ∧
    ((generate_demo_history p now g days).map DemoPoint.date).Nodup := by
  have hg : generate_demo_history p now g days =
      (demoHistoryAux now (p * (9 / 10)) g days).1 := rfl
  have hpw : List.Pairwise (· < ·)
      ((generate_demo_history p now g days).map DemoPoint.date) := by
    rw [hg, demoHistoryAux_dates now days (p * (9 / 10)) g]
    exact (lastDays_pairwise now days).filter _
  exact ⟨hpw, hpw.imp (fun h => ne_of_lt h)⟩

/-- Witness for C10 at a concrete seven-day window. -/
theorem claim_C10_witness :
    List.Pairwise (· < ·)
      ((generate_demo_history 100 12 ⟨fun _ => 0, 0⟩ 7).map DemoPoint.date) ∧
    ((generate_demo_history 100 12 ⟨fun _ => 0, 0⟩ 7).map DemoPoint.date).Nodup :=
  claim_C10 100 12 ⟨fun _ => 0, 0⟩ 7 (by decide)

/-- Claim C1: in live mode every symbol whose quote fetch returns the
absent marker is excluded from the written `stocks` mapping and from the
`symbols` list (which is the mapping's key list), while every symbol
whose quote fetch succeeds is recorded with its quote paired with the
fetched (possibly empty) history. -/
theorem claim_C1 (qresp : String → Transport QuotePayload)
    (hresp : String → Transport HistPayload) (k : String) (senv : Option String)
    (now : ℤ) (g : Rng) (ts : String) (hk1 : k ≠ "demo") (hk2 : k ≠ "") :
    (runStocks (some k) senv qresp hresp now g =
      (liveLoop qresp hresp (get_symbols senv) []).map
        (fun p => (p.1, RunRecord.live p.2))) ∧
    (∀ snap : Snapshot, (mainRun (some k) senv qresp hresp now g ts).2 = some snap →
      snap.symbols = snap.stocks.map Prod.fst ∧
      snap.stocks = runStocks (some k) senv qresp hresp now g) ∧
    (∀ sym ∈ get_symbols senv,
      ((fetch_quote sym (qresp sym)).toOption = none →
        dictFind (runStocks (some k) senv qresp hresp now g) sym = none ∧
        sym ∉ (runStocks (some k) senv qresp hresp now g).map Prod.fst) ∧
      (∀ q : Quote, (fetch_quote sym (qresp sym)).toOption = some q →
        dictFind (runStocks (some k) senv qresp hresp now g) sym =
          some (RunRecord.live
            { quote := q, history := fetch_daily_history (hresp sym) }))) := by
  have hkey : get_api_key (some k) = k := by
    show (if k = "" then "demo" else k) = k
    rw [if_neg hk2]
  have hlive : runStocks (some k) senv qresp hresp now g =
      (liveLoop qresp hresp (get_symbols senv) []).map
        (fun p => (p.1, RunRecord.live p.2)) := by
    unfold runStocks
    rw [hkey, if_neg hk1]
  refine ⟨hlive, ?_, ?_⟩
  · intro snap hsnap
    simp only [mainRun] at hsnap
    split at hsnap
    · simp at hsnap
    · have h := Option.some.inj hsnap
      subst h
      exact ⟨rfl, rfl⟩
  · intro sym hsym
    constructor
    · intro hfail
      have hfind : dictFind (liveLoop qresp hresp (get_symbols senv) []) sym = none := by
        rw [liveLoop_find_of_fail qresp hresp sym hfail (get_symbols senv) []]
        rfl
      constructor
      · rw [hlive, dictFind_mapped, hfind]
        rfl
      · rw [hlive, mapped_keys]
        exact (dictFind_eq_none_iff _ _).mp hfind
    · intro q hq
      rw [hlive, dictFind_mapped,
        liveLoop_find_of_success qresp hresp sym q hq (get_symbols senv) [] hsym]
      rfl

/-- Witness for C1: with two configured symbols and a failing quote for
`AAPL`, the written mapping and key list exclude `AAPL`. -/
theorem claim_C1_witness :
    dictFind (runStocks (some "KEY") (some "AAPL,MSFT")
      (fun s => if s = "AAPL" then .ok ⟨some "bad symbol", none, []⟩
        else .ok ⟨none, none, [("05. price", "1.5")]⟩)
      (fun _ => .exn "boom") 0 ⟨fun _ => 0, 0⟩) "AAPL" = none ∧
    "AAPL" ∉ ((runStocks (some "KEY") (some "AAPL,MSFT")
      (fun s => if s = "AAPL" then .ok ⟨some "bad symbol", none, []⟩
        else .ok ⟨none, none, [("05. price", "1.5")]⟩)
      (fun _ => .exn "boom") 0 ⟨fun _ => 0, 0⟩).map Prod.fst) :=
  ((claim_C1
      (fun s => if s = "AAPL" then .ok ⟨some "bad symbol", none, []⟩
        else .ok ⟨none, none, [("05. price", "1.5")]⟩)
      (fun _ => .exn "boom") "KEY" (some "AAPL,MSFT") 0 ⟨fun _ => 0, 0⟩ "T"
      (by decide) (by decide)).2.2 "AAPL" (by decide)).1 (by decide)

/-- Claim C2: a run whose resulting mapping is empty exits with status 1
and writes nothing (a pre-existing snapshot is untouched); a run whose
mapping is non-empty exits with status 0 and writes the snapshot. -/
theorem claim_C2 (aenv senv : Option String)
    (qresp : String → Transport QuotePayload)
    (hresp : String → Transport HistPayload) (now : ℤ) (g : Rng) (ts : String) :
    (runStocks aenv senv qresp hresp now g = [] →
      mainRun aenv senv qresp hresp now g ts = (1, none) ∧
      ∀ prior, fileAfter prior (mainRun aenv senv qresp hresp now g ts) = prior) ∧
    (runStocks aenv senv qresp hresp now g ≠ [] →
      (mainRun aenv senv qresp hresp now g ts).1 = 0 ∧
      (mainRun aenv senv qresp hresp now g ts).2 =
        some { lastUpdated := ts,
               symbols := (runStocks aenv senv qresp hresp now g).map Prod.fst,
               stocks := runStocks aenv senv qresp hresp now g } ∧
      ∀ prior, fileAfter prior (mainRun aenv senv qresp hresp now g ts) =
        some { lastUpdated := ts,
               symbols := (runStocks aenv senv qresp hresp now g).map Prod.fst,
               stocks := runStocks aenv senv qresp hresp now g }) := by
  constructor
  · intro hemp
    have hb : (runStocks aenv senv qresp hresp now g).isEmpty = true := by
      rw [hemp]
      rfl
    have hmr : mainRun aenv senv qresp hresp now g ts = (1, none) := by
      simp only [mainRun, hb, if_true]
    refine ⟨hmr, fun prior => ?_⟩
    rw [hmr]
    rfl
  · intro hne
    have hb : (runStocks aenv senv qresp hresp now g).isEmpty = false := by
      rw [List.isEmpty_eq_false]
      exact hne
    have hmr : mainRun aenv senv qresp hresp now g ts =
        (0, some { lastUpdated := ts,
                   symbols := (runStocks aenv senv qresp hresp now g).map Prod.fst,
                   stocks := runStocks aenv senv qresp hresp now g }) := by
      simp only [mainRun, hb, Bool.false_eq_true, if_false]
    refine ⟨by rw [hmr], by rw [hmr], fun prior => ?_⟩
    rw [hmr]
    rfl

/-- Witness for C2: with one configured symbol and a failing transport,
the run exits 1 and a pre-existing snapshot is left unchanged. -/
theorem claim_C2_witness :
    mainRun (some "KEY") (some "A") (fun _ => .exn "down") (fun _ => .exn "down")
      0 ⟨fun _ => 0, 0⟩ "T" = (1, none) ∧
    fileAfter (some ⟨"old", ["X"], []⟩)
      (mainRun (some "KEY") (some "A") (fun _ => .exn "down") (fun _ => .exn "down")
        0 ⟨fun _ => 0, 0⟩ "T") = some ⟨"old", ["X"], []⟩ := by
  have h := (claim_C2 (some "KEY") (some "A") (fun _ => .exn "down")
    (fun _ => .exn "down") 0 ⟨fun _ => 0, 0⟩ "T").1 (by decide)
  exact ⟨h.1, h.2 (some ⟨"old", ["X"], []⟩)⟩

/-- Claim C9: even with duplicate configured symbols, the built `stocks`
mapping has exactly one entry per distinct symbol — a later occurrence
overwrites the earlier one — and the written `symbols` key list has no
duplicates, in demo mode and in live mode alike. -/
theorem claim_C9 :
    (∀ (symbols : List String) (now : ℤ) (g : Rng),
      ((generate_demo_data symbols now g).map Prod.fst).Nodup ∧
      (∀ a, a ∈ (generate_demo_data symbols now g).map Prod.fst ↔ a ∈ symbols)) ∧
    (∀ (qresp : String → Transport QuotePayload)
       (hresp : String → Transport HistPayload) (symbols : List String),
      ((liveLoop qresp hresp symbols []).map Prod.fst).Nodup) ∧
    (∀ (aenv senv : Option String) (qresp : String → Transport QuotePayload)
       (hresp : String → Transport HistPayload) (now : ℤ) (g : Rng) (ts : String)
       (snap : Snapshot),
      (mainRun aenv senv qresp hresp now g ts).2 = some snap → snap.symbols.Nodup) ∧
    (∀ (s : String) (now : ℤ) (g : Rng),
      dictFind (generate_demo_data [s, s] now g) s =
        some (mkDemoRecord s now (mkDemoRecord s now g).2).1) := by
  refine ⟨?_, ?_, ?_, ?_⟩
  · intro symbols now g
    constructor
    · exact demoLoop_keys_nodup now symbols [] g List.nodup_nil
    · intro a
      rw [show generate_demo_data symbols now g = demoLoop now symbols [] g from rfl,
        demoLoop_mem_keys]
      simp
  · intro qresp hresp symbols
    exact liveLoop_keys_nodup qresp hresp symbols [] List.nodup_nil
  · intro aenv senv qresp hresp now g ts snap hsnap
    simp only [mainRun] at hsnap
    split at hsnap
    · simp at hsnap
    · have h := Option.some.inj hsnap
      subst h
      show ((runStocks aenv senv qresp hresp now g).map Prod.fst).Nodup
      unfold runStocks
      by_cases hdemo : get_api_key aenv = "demo"
      · rw [if_pos hdemo, mapped_keys]
        exact demoLoop_keys_nodup now _ [] g List.nodup_nil
      · rw [if_neg hdemo, mapped_keys]
        exact liveLoop_keys_nodup qresp hresp _ [] List.nodup_nil
  · intro s now g
    show dictFind (demoLoop now [s, s] [] g) s = _
    simp only [demoLoop, dictInsert]
    simp [dictFind]

/-- Witness for C9: a live run over the duplicated symbol list `A,A`
writes a duplicate-free symbol list. -/
theorem claim_C9_witness :
    (Snapshot.mk "T" ["A"]
      [("A", RunRecord.live
        { quote := { symbol := "A", price := Rat.divInt 15 10, change := 0,
                     changePercent := 0, «open» := 0, high := 0, low := 0,
                     volume := 0, prevClose := 0, latestTradingDay := "" },
          history := [] })]).symbols.Nodup :=
  claim_C9.2.2.1 (some "KEY") (some "A,A")
    (fun _ => .ok ⟨none, none, [("05. price", "1.5")]⟩)
    (fun _ => .exn "down") 0 ⟨fun _ => 0, 0⟩ "T" _ (by decide)
